import Mathlib

/-!
Verification development for `src/fetchers/top-languages.js` (github-readme-stats).

The file shallowly embeds the single source file `top-languages.js`:
`fetchTopLanguages` validates the username, drives a cursor-based pagination
loop over an injected fetch collaborator, and aggregates the collected
repository language edges into a ranked mapping.

Modelling conventions:
- JS numbers holding byte sizes and counts are modelled as `Nat` (they are
  non-negative integers in the data model).
- The weight exponents `size_weight` / `count_weight` are modelled as `Nat`;
  the defaults `1` and `0` and the documented alternative configurations are
  integers, and `Math.pow` on non-negative integer base and integer exponent
  agrees with `Nat.pow` in this range.
- A JS object used as a string-keyed dictionary is modelled as an association
  list in insertion order (JS objects enumerate non-index string keys in
  insertion order; assignment to an existing key keeps its position,
  assignment to a fresh key appends).  Programming-language names are
  non-index keys.
- Fallible JS code (a thrown `TypeError` from reading a property of
  `undefined`, thrown `CustomError` / `MissingParamError`) is modelled with
  `Except`.
- The async pagination loop is modelled as a function consuming the list of
  page responses the upstream would serve, in order; running off the end of
  that list corresponds to the loop still asking for more pages.
-/

/-- A GraphQL language node: `edge.node` with fields `color` and `name`
(query lines 34-37 of the source). -/
structure LangNode where
  color : String
  name : String
deriving DecidableEq

/-- A language edge `languages.edges[i]` of a repository: a byte `size` and
the language `node` (query lines 32-38). -/
structure LanguageEdge where
  size : Nat
  node : LangNode
deriving DecidableEq

/-- A repository node: `name` plus its language edge list.  `languages` is
`none` when the `languages` field or its `edges` list is absent from the
response; `some es` when the edge list `es` is present (possibly empty).
The source reads `node.languages.edges` without a guard, so the `none`
case makes it throw a `TypeError`. -/
structure RepoNode where
  name : String
  languages : Option (List LanguageEdge)
deriving DecidableEq

/-- One entry of `languageStats`: `{ name, color, size, count }`
(source lines 132-146). -/
structure LangStat where
  name : String
  color : String
  size : Nat
  count : Nat
deriving DecidableEq

/-- One element of the `res.data.errors` list: `{ type, message }`, either
field possibly absent. -/
structure GqlError where
  type : Option String
  message : Option String
deriving DecidableEq

/-- One page response, flattening `res.statusText`, `res.data.errors` and
`res.data.data.user.repositories = { pageInfo, nodes }`.  `errors = none`
models an absent (or null) error envelope. -/
structure Page where
  errors : Option (List GqlError)
  statusText : String
  nodes : List RepoNode
  hasNextPage : Bool
  endCursor : Option String
deriving DecidableEq

/-- Modelled from the spec: the error classes live in `src/common/error.js`,
which is not among the provided sources.  The spec's taxonomy (section 7)
gives `ValidationError` (here `missingParam`, the `MissingParamError` of the
source), `UserNotFoundError` (`CustomError(msg, USER_NOT_FOUND)`),
`UpstreamError` (`CustomError(wrapped, res.statusText)`) and the generic
GraphQL fallback (`CustomError(generic, GRAPHQL_ERROR)`).  `jsTypeError`
models a JavaScript `TypeError` thrown by reading a property of `undefined`;
`streamEnded` is a model artifact for the pagination loop requesting a page
beyond the supplied response stream. -/
inductive FetchError where
  | missingParam (params : List String)
  | userNotFound (message : String)
  | upstream (message : String) (statusText : String)
  | graphql (message : String)
  | jsTypeError
  | streamEnded
deriving DecidableEq

/-- JS truthiness of an optional string: `undefined`, `null` and `""` are
falsy, every other string is truthy. -/
def jsTruthyString : Option String → Bool
  | none => false
  | some s => !s.isEmpty

/-- The JS idiom `s || d` on an optional string: the string when truthy,
otherwise the default. -/
def jsStringOr (s : Option String) (d : String) : String :=
  match s with
  | some v => if v.isEmpty then d else v
  | none => d

/-- Modelled from the spec: `wrapTextMultiline` lives in `src/common/fmt.js`,
which is not among the provided sources.  The spec (sections 4.1 and 7)
describes the value used here, `wrapTextMultiline(message, 90, 1)[0]`, as "a
truncated (at most 90 characters per line, first line only) version of the
provider message", so the model returns a single line of at most `width`
characters. -/
def wrapTextMultiline (text : String) (width : Nat) (_maxLines : Nat) : List String :=
  [String.mk (text.toList.take width)]

/-- Embedding of the error-envelope handling, source lines 85-101: the first
error alone is inspected; `type === "NOT_FOUND"` yields the user-not-found
error with `firstError.message || "Could not fetch user."`; otherwise a
truthy `firstError.message` yields the upstream error with the first wrapped
line and `res.statusText`; otherwise the generic GraphQL error. -/
def handleGqlErrors (firstError : GqlError) (statusText : String) : FetchError :=
  if firstError.type = some "NOT_FOUND" then
    .userNotFound (jsStringOr firstError.message "Could not fetch user.")
  else if jsTruthyString firstError.message then
    .upstream ((wrapTextMultiline (firstError.message.getD "") 90 1).headD "") statusText
  else
    .graphql "Something went wrong while trying to retrieve the language data using the GraphQL API."

/-- Embedding of the pagination loop, source lines 80-111, over the list of
page responses the upstream serves in order.  Each iteration performs one
(retry-wrapped) fetch, counted in the second component.  A present error
envelope is handled by `handleGqlErrors` (an envelope that is an empty array
is truthy in JS, so the destructuring `const [firstError] = ...` yields
`undefined` and reading `.type` throws a `TypeError`).  Otherwise the page's
nodes are appended and the loop continues exactly when `hasNextPage` holds. -/
def collectNodes (acc : List RepoNode) (fetchCount : Nat) :
    List Page → Except FetchError (List RepoNode) × Nat
  | [] => (.error .streamEnded, fetchCount)
  | p :: ps =>
    match p.errors with
    | some [] => (.error .jsTypeError, fetchCount + 1)
    | some (e :: _) => (.error (handleGqlErrors e p.statusText), fetchCount + 1)
    | none =>
      if p.hasNextPage then collectNodes (acc ++ p.nodes) (fetchCount + 1) ps
      else (.ok (acc ++ p.nodes), fetchCount + 1)

/-- Embedding of the legacy repository sort, source line 119:
`.sort((a, b) => b.size - a.size)`.  The GraphQL query selects only `name`
and `languages` on repository nodes, so `a.size` and `b.size` are
`undefined`, the comparator evaluates to `NaN`, and the sort's comparisons
(`c > 0`, `c < 0`) are all false: every pair compares as equal and the
stable sort returns the array unchanged. -/
def legacySort (nodes : List RepoNode) : List RepoNode := nodes

/-- Embedding of the exclusion filter, source lines 113-120: `repoToHide` is
a plain object keyed by the names of `[...exclude_repo, ...excludeRepositories]`,
and `!repoToHide[repo.name]` keeps exactly the repositories whose name is not
among those keys.  The process-wide list `excludeRepositories`
(`src/common/envs.js`, not among the provided sources) is, per the spec,
"treated as an opaque injected list" and is a parameter here. -/
def keptNodes (allRepoNodes : List RepoNode)
    (exclude_repo excludeRepositories : List String) : List RepoNode :=
  (legacySort allRepoNodes).filter
    fun repo => decide (repo.name ∉ exclude_repo ++ excludeRepositories)

/-- Embedding of `.filter((node) => node.languages.edges.length > 0)`, source
line 125.  `Array.prototype.filter` evaluates the predicate left to right,
and reading `.edges` of an absent `languages` throws a `TypeError`. -/
def filterNonEmptyLangs : List RepoNode → Except FetchError (List RepoNode)
  | [] => .ok []
  | n :: ns =>
    match n.languages with
    | none => .error .jsTypeError
    | some es =>
      match filterNonEmptyLangs ns with
      | .error e => .error e
      | .ok rest => .ok (if es.length > 0 then n :: rest else rest)

/-- Embedding of the flattening reduce, source line 126:
`.reduce((acc, curr) => curr.languages.edges.concat(acc), [])`, which puts
each repository's edges (in their own order) in front of the accumulator, so
the flattened sequence lists the repositories in reverse order.  At this
point every node has passed `filterNonEmptyLangs`, so `languages` is
present; `getD []` renders the same access totally. -/
def flattenEdges (nodes : List RepoNode) : List LanguageEdge :=
  nodes.foldl (fun acc curr => curr.languages.getD [] ++ acc) []

/-- JS object assignment `acc[key] = v` on an association list in insertion
order: replace the first binding of `key` in place, or append a fresh
binding at the end. -/
def objSet : List (String × LangStat) → String → LangStat → List (String × LangStat)
  | [], key, v => [(key, v)]
  | (k, w) :: rest, key, v =>
    if k = key then (key, v) :: rest else (k, w) :: objSet rest key v

/-- Embedding of one step of the accumulating reduce, source lines 127-148:
read `acc[langName]`; when present, write back size `prev.size + edge.size`,
count `prev.count + 1` and — as the source does — the color of the CURRENT
edge; when absent, initialize with the edge's size, count 1 and the edge's
color. -/
def statStep (acc : List (String × LangStat)) (edge : LanguageEdge) :
    List (String × LangStat) :=
  let langName := edge.node.name
  match acc.lookup langName with
  | some prev =>
    objSet acc langName ⟨langName, edge.node.color, prev.size + edge.size, prev.count + 1⟩
  | none =>
    objSet acc langName ⟨langName, edge.node.color, edge.size, 1⟩

/-- The accumulating reduce over the flattened edge sequence, source lines
127-149, starting from the empty object. -/
def buildStats (edges : List LanguageEdge) : List (String × LangStat) :=
  edges.foldl statStep []

/-- Embedding of the weighting pass, source lines 151-155: every entry's
`size` becomes `pow(size, size_weight) * pow(count, count_weight)`. -/
def applyWeights (size_weight count_weight : Nat)
    (stats : List (String × LangStat)) : List (String × LangStat) :=
  stats.map fun kv =>
    (kv.1, { kv.2 with size := kv.2.size ^ size_weight * kv.2.count ^ count_weight })

/-- One insertion step of a stable descending sort on the weighted `size`.
The source (lines 157-158) sorts with the comparator
`languageStats[b].size - languageStats[a].size`; `Array.prototype.sort` is
stable, and a stable sort with respect to a total preorder is uniquely
determined, so a stable insertion sort produces the same list. -/
def insertDesc (x : String × LangStat) :
    List (String × LangStat) → List (String × LangStat)
  | [] => [x]
  | y :: ys => if y.2.size < x.2.size then x :: y :: ys else y :: insertDesc x ys

/-- The final ranking sort, source lines 157-162: the entries reordered
descending by weighted `size` and rebuilt into an insertion-ordered mapping. -/
def sortStats (stats : List (String × LangStat)) : List (String × LangStat) :=
  stats.foldr insertDesc []

/-- The aggregation stage of `fetchTopLanguages`, source lines 113-162:
legacy sort, exclusion filter, empty-edge-list filter (which throws on an
absent edge list), flattening, the accumulating reduce, the weighting pass
and the final ranking sort. -/
def aggregate (allRepoNodes : List RepoNode)
    (exclude_repo excludeRepositories : List String)
    (size_weight count_weight : Nat) :
    Except FetchError (List (String × LangStat)) :=
  match filterNonEmptyLangs (keptNodes allRepoNodes exclude_repo excludeRepositories) with
  | .error e => .error e
  | .ok nonEmpty =>
    .ok (sortStats (applyWeights size_weight count_weight (buildStats (flattenEdges nonEmpty))))

/-- Embedding of the public entry point, source lines 66-165.  A falsy
username (`""`, modelling also absent) throws `MissingParamError(["username"])`
before the loop, so the fetch collaborator is never invoked: the second
component is the number of fetches performed. -/
def fetchTopLanguages (username : String) (exclude_repo : List String)
    (size_weight count_weight : Nat) (excludeRepositories : List String)
    (pages : List Page) : Except FetchError (List (String × LangStat)) × Nat :=
  if username = "" then (.error (.missingParam ["username"]), 0)
  else
    match collectNodes [] 0 pages with
    | (.error e, n) => (.error e, n)
    | (.ok allRepoNodes, n) =>
      (aggregate allRepoNodes exclude_repo excludeRepositories size_weight count_weight, n)

/-- The flattened edge sequence contributed by the non-excluded repositories
of an input (nodes with an empty or absent edge list contribute no edges). -/
def keptEdges (allRepoNodes : List RepoNode)
    (exclude_repo excludeRepositories : List String) : List LanguageEdge :=
  flattenEdges (keptNodes allRepoNodes exclude_repo excludeRepositories)

/-- Spec-side count: how many edges of a sequence name the given language. -/
def countEdgesNamed (l : String) : List LanguageEdge → Nat
  | [] => 0
  | e :: es => (if e.node.name = l then 1 else 0) + countEdgesNamed l es

/-- Spec-side sum: total byte size of the edges of a sequence naming the
given language. -/
def sumSizesNamed (l : String) : List LanguageEdge → Nat
  | [] => 0
  | e :: es => (if e.node.name = l then e.size else 0) + sumSizesNamed l es

/-- Spec-side color: the color of the LAST edge of a sequence naming the
given language, if any. -/
def lastColorNamed (l : String) : List LanguageEdge → Option String
  | [] => none
  | e :: es =>
    match lastColorNamed l es with
    | some c => some c
    | none => if e.node.name = l then some e.node.color else none

/-- Spec-side color: the color of the FIRST edge of a sequence naming the
given language, if any (the quantity the spec says is recorded). -/
def firstColorNamed (l : String) : List LanguageEdge → Option String
  | [] => none
  | e :: es => if e.node.name = l then some e.node.color else firstColorNamed l es

/-- Spec-side count: the number of repositories of a list whose edge list
contains the given language at least once (the quantity the spec says
`count` equals). -/
def reposListing (l : String) (nodes : List RepoNode) : Nat :=
  (nodes.filter fun n => (n.languages.getD []).any fun e => e.node.name == l).length

/-- The size stored in an optional previous stat, `0` when absent. -/
def prevSize (o : Option LangStat) : Nat := (o.map LangStat.size).getD 0

/-- The count stored in an optional previous stat, `0` when absent. -/
def prevCount (o : Option LangStat) : Nat := (o.map LangStat.count).getD 0

theorem lookup_objSet (acc : List (String × LangStat)) (key l : String) (v : LangStat) :
    (objSet acc key v).lookup l = if l = key then some v else acc.lookup l := by
  induction acc with
  | nil =>
    by_cases h : l = key
    · simp [objSet, List.lookup_cons, h]
    · simp [objSet, List.lookup_cons, beq_false_of_ne h, h]
  | cons hd tl ih =>
    obtain ⟨k, w⟩ := hd
    by_cases hk : k = key
    · subst hk
      by_cases h : l = k
      · subst h; simp [objSet, List.lookup_cons]
      · simp [objSet, List.lookup_cons, beq_false_of_ne h, h]
    · by_cases h : l = k
      · simp [objSet, hk, List.lookup_cons, h]
      · simp [objSet, hk, List.lookup_cons, beq_false_of_ne h, ih]

theorem lookup_statStep (acc : List (String × LangStat)) (e : LanguageEdge) (l : String) :
    (statStep acc e).lookup l =
      if l = e.node.name then
        some ⟨e.node.name, e.node.color,
              prevSize (acc.lookup e.node.name) + e.size,
              prevCount (acc.lookup e.node.name) + 1⟩
      else acc.lookup l := by
  cases h : acc.lookup e.node.name with
  | none => simp [statStep, h, lookup_objSet, prevSize, prevCount]
  | some prev => simp [statStep, h, lookup_objSet, prevSize, prevCount]

theorem sumSizesNamed_eq_zero {l : String} {es : List LanguageEdge}
    (h : countEdgesNamed l es = 0) : sumSizesNamed l es = 0 := by
  induction es with
  | nil => rfl
  | cons e es ih =>
    by_cases he : e.node.name = l
    · simp [countEdgesNamed, he] at h
    · simp only [countEdgesNamed, if_neg he, Nat.zero_add] at h
      simp [sumSizesNamed, he, ih h]

theorem lastColorNamed_eq_none {l : String} {es : List LanguageEdge}
    (h : countEdgesNamed l es = 0) : lastColorNamed l es = none := by
  induction es with
  | nil => rfl
  | cons e es ih =>
    by_cases he : e.node.name = l
    · simp [countEdgesNamed, he] at h
    · simp only [countEdgesNamed, if_neg he, Nat.zero_add] at h
      simp [lastColorNamed, ih h, he]

theorem lastColorNamed_isSome {l : String} {es : List LanguageEdge}
    (h : countEdgesNamed l es ≠ 0) : (lastColorNamed l es).isSome := by
  induction es with
  | nil => simp [countEdgesNamed] at h
  | cons e es ih =>
    by_cases hrest : countEdgesNamed l es = 0
    · have he : e.node.name = l := by
        by_contra he
        simp [countEdgesNamed, he, hrest] at h
      simp [lastColorNamed, lastColorNamed_eq_none hrest, he]
    · have := ih hrest
      obtain ⟨c, hc⟩ := Option.isSome_iff_exists.mp this
      simp [lastColorNamed, hc]

theorem lastColorNamed_cons_ne {l : String} {e : LanguageEdge} {es : List LanguageEdge}
    (h : e.node.name ≠ l) : lastColorNamed l (e :: es) = lastColorNamed l es := by
  cases hc : lastColorNamed l es <;> simp [lastColorNamed, hc, h]

theorem foldl_statStep_lookup (l : String) (es : List LanguageEdge) :
    ∀ acc : List (String × LangStat),
    (es.foldl statStep acc).lookup l =
      if countEdgesNamed l es = 0 then acc.lookup l
      else some ⟨l, (lastColorNamed l es).getD "",
                 prevSize (acc.lookup l) + sumSizesNamed l es,
                 prevCount (acc.lookup l) + countEdgesNamed l es⟩ := by
  induction es with
  | nil => intro acc; simp [countEdgesNamed]
  | cons e es ih =>
    intro acc
    rw [List.foldl_cons, ih (statStep acc e), lookup_statStep]
    by_cases hl : l = e.node.name
    · have hl' : e.node.name = l := hl.symm
      rw [if_pos hl]
      by_cases hrest : countEdgesNamed l es = 0
      · rw [if_pos hrest]
        have hs := sumSizesNamed_eq_zero hrest
        have hc := lastColorNamed_eq_none hrest
        simp [countEdgesNamed, sumSizesNamed, lastColorNamed, hrest, hs, hc, hl',
              Nat.add_assoc]
      · rw [if_neg hrest]
        obtain ⟨c, hcol⟩ := Option.isSome_iff_exists.mp (lastColorNamed_isSome hrest)
        simp [countEdgesNamed, sumSizesNamed, lastColorNamed, hrest, hcol, hl',
              prevSize, prevCount, Nat.add_assoc]
    · have hl' : e.node.name ≠ l := fun hh => hl hh.symm
      rw [if_neg hl]
      simp [countEdgesNamed, sumSizesNamed, lastColorNamed_cons_ne hl', hl']

theorem lookup_buildStats (es : List LanguageEdge) (l : String) :
    (buildStats es).lookup l =
      if countEdgesNamed l es = 0 then none
      else some ⟨l, (lastColorNamed l es).getD "", sumSizesNamed l es, countEdgesNamed l es⟩ := by
  have h := foldl_statStep_lookup l es []
  simpa [buildStats, prevSize, prevCount] using h

theorem mem_keys_objSet {acc : List (String × LangStat)} {key a : String} {v : LangStat} :
    a ∈ (objSet acc key v).map Prod.fst ↔ a ∈ acc.map Prod.fst ∨ a = key := by
  induction acc with
  | nil => simp [objSet]
  | cons hd tl ih =>
    obtain ⟨k, w⟩ := hd
    by_cases hk : k = key
    · subst hk
      simp [objSet]
      tauto
    · simp [objSet, hk, ih]
      tauto

theorem nodup_keys_objSet {acc : List (String × LangStat)} {key : String} {v : LangStat}
    (h : (acc.map Prod.fst).Nodup) : ((objSet acc key v).map Prod.fst).Nodup := by
  induction acc with
  | nil => simp [objSet]
  | cons hd tl ih =>
    obtain ⟨k, w⟩ := hd
    simp only [List.map_cons, List.nodup_cons] at h
    by_cases hk : k = key
    · subst hk
      simpa [objSet, List.nodup_cons] using h
    · simp only [objSet, if_neg hk, List.map_cons, List.nodup_cons]
      refine ⟨fun hmem => ?_, ih h.2⟩
      rcases mem_keys_objSet.mp hmem with h1 | h1
      · exact h.1 h1
      · exact hk h1

theorem nodup_keys_foldl_statStep (es : List LanguageEdge) :
    ∀ acc, ((acc : List (String × LangStat)).map Prod.fst).Nodup →
    ((es.foldl statStep acc).map Prod.fst).Nodup := by
  induction es with
  | nil => intro acc h; simpa using h
  | cons e es ih =>
    intro acc h
    rw [List.foldl_cons]
    apply ih
    cases hx : acc.lookup e.node.name <;>
      simp only [statStep, hx] <;> exact nodup_keys_objSet h

theorem nodup_keys_buildStats (es : List LanguageEdge) :
    ((buildStats es).map Prod.fst).Nodup :=
  nodup_keys_foldl_statStep es [] (by simp)

theorem lookup_eq_of_mem {acc : List (String × LangStat)} {k : String} {v : LangStat}
    (hnd : (acc.map Prod.fst).Nodup) (hmem : (k, v) ∈ acc) : acc.lookup k = some v := by
  induction acc with
  | nil => simp at hmem
  | cons hd tl ih =>
    obtain ⟨k', w⟩ := hd
    simp only [List.map_cons, List.nodup_cons] at hnd
    rcases List.mem_cons.mp hmem with h | h
    · injection h with h1 h2
      subst h1
      subst h2
      simp [List.lookup_cons]
    · have hk : k ≠ k' := by
        rintro rfl
        exact hnd.1 (List.mem_map.mpr ⟨(k, v), h, rfl⟩)
      simp [List.lookup_cons, beq_false_of_ne hk, ih hnd.2 h]

theorem insertDesc_perm (x : String × LangStat) (l : List (String × LangStat)) :
    List.Perm (insertDesc x l) (x :: l) := by
  induction l with
  | nil => simp [insertDesc]
  | cons y ys ih =>
    by_cases h : y.2.size < x.2.size
    · simp [insertDesc, h]
    · simp only [insertDesc, if_neg h]
      exact (ih.cons y).trans (List.Perm.swap x y ys)

theorem sortStats_perm (l : List (String × LangStat)) : List.Perm (sortStats l) l := by
  induction l with
  | nil => simp [sortStats]
  | cons y ys ih =>
    simp only [sortStats, List.foldr_cons]
    exact (insertDesc_perm y _).trans (ih.cons y)

/-- The output order of the ranking sort: an earlier entry has a weighted
`size` at least as large as any later entry's. -/
def sizeGE (a b : String × LangStat) : Prop := b.2.size ≤ a.2.size

theorem pairwise_insertDesc (x : String × LangStat) {l : List (String × LangStat)}
    (h : l.Pairwise sizeGE) : (insertDesc x l).Pairwise sizeGE := by
  induction l with
  | nil => simp [insertDesc, sizeGE]
  | cons y ys ih =>
    rw [List.pairwise_cons] at h
    by_cases hlt : y.2.size < x.2.size
    · simp only [insertDesc, if_pos hlt]
      rw [List.pairwise_cons]
      refine ⟨fun b hb => ?_, List.pairwise_cons.mpr h⟩
      rcases List.mem_cons.mp hb with rfl | hb
      · exact le_of_lt hlt
      · exact le_trans (h.1 b hb) (le_of_lt hlt)
    · simp only [insertDesc, if_neg hlt]
      rw [List.pairwise_cons]
      refine ⟨fun b hb => ?_, ih h.2⟩
      have hb' := (insertDesc_perm x ys).mem_iff.mp hb
      rcases List.mem_cons.mp hb' with rfl | hb'
      · exact le_of_not_lt hlt
      · exact h.1 b hb'

theorem sortStats_pairwise (l : List (String × LangStat)) :
    (sortStats l).Pairwise sizeGE := by
  induction l with
  | nil => simp [sortStats]
  | cons y ys ih =>
    simp only [sortStats, List.foldr_cons]
    exact pairwise_insertDesc y ih

theorem foldl_flatten (es : List RepoNode) :
    ∀ acc : List LanguageEdge,
    es.foldl (fun a c => c.languages.getD [] ++ a) acc = flattenEdges es ++ acc := by
  induction es with
  | nil => intro acc; simp [flattenEdges]
  | cons n ns ih =>
    intro acc
    simp only [flattenEdges, List.foldl_cons]
    rw [ih (n.languages.getD [] ++ acc), ih (n.languages.getD [] ++ [])]
    simp [List.append_assoc]

theorem flattenEdges_cons (n : RepoNode) (ns : List RepoNode) :
    flattenEdges (n :: ns) = flattenEdges ns ++ n.languages.getD [] := by
  simp only [flattenEdges, List.foldl_cons]
  rw [foldl_flatten]
  simp [flattenEdges]

theorem filterNonEmptyLangs_flatten :
    ∀ {l r : List RepoNode}, filterNonEmptyLangs l = .ok r → flattenEdges r = flattenEdges l := by
  intro l
  induction l with
  | nil =>
    intro r h
    simp only [filterNonEmptyLangs, Except.ok.injEq] at h
    subst h
    rfl
  | cons n ns ih =>
    intro r h
    simp only [filterNonEmptyLangs] at h
    cases hl : n.languages with
    | none => rw [hl] at h; exact absurd h (by simp)
    | some es =>
      rw [hl] at h
      cases hrec : filterNonEmptyLangs ns with
      | error e => rw [hrec] at h; exact absurd h (by simp)
      | ok rest =>
        rw [hrec] at h
        simp only [Except.ok.injEq] at h
        subst h
        by_cases hlen : es.length > 0
        · simp [hlen, flattenEdges_cons, ih hrec, hl]
        · have hes : es = [] := List.eq_nil_of_length_eq_zero (by omega)
          simp [hlen, flattenEdges_cons, ih hrec, hl, hes]

theorem filterNonEmptyLangs_ok {l : List RepoNode}
    (h : ∀ n ∈ l, n.languages ≠ none) : ∃ r, filterNonEmptyLangs l = .ok r := by
  induction l with
  | nil => exact ⟨[], rfl⟩
  | cons n ns ih =>
    obtain ⟨r, hr⟩ := ih fun m hm => h m (List.mem_cons_of_mem n hm)
    cases hl : n.languages with
    | none => exact absurd hl (h n (List.mem_cons_self n ns))
    | some es =>
      exact ⟨if es.length > 0 then n :: r else r, by simp [filterNonEmptyLangs, hl, hr]⟩

theorem aggregate_ok_mem {nodes : List RepoNode} {excl env : List String} {sw cw : Nat}
    {out : List (String × LangStat)} {l : String} {s : LangStat}
    (hok : aggregate nodes excl env sw cw = .ok out) (hmem : (l, s) ∈ out) :
    countEdgesNamed l (keptEdges nodes excl env) ≠ 0 ∧
    s.count = countEdgesNamed l (keptEdges nodes excl env) ∧
    s.size = sumSizesNamed l (keptEdges nodes excl env) ^ sw *
             countEdgesNamed l (keptEdges nodes excl env) ^ cw ∧
    lastColorNamed l (keptEdges nodes excl env) = some s.color := by
  unfold aggregate at hok
  split at hok
  · exact absurd hok (by simp)
  · rename_i ne hfil
    simp only [Except.ok.injEq] at hok
    subst hok
    have hE : flattenEdges ne = keptEdges nodes excl env :=
      filterNonEmptyLangs_flatten hfil
    have hmem1 : (l, s) ∈ applyWeights sw cw (buildStats (flattenEdges ne)) :=
      (sortStats_perm _).mem_iff.mp hmem
    simp only [applyWeights, List.mem_map] at hmem1
    obtain ⟨⟨k0, s0⟩, hmem0, heq⟩ := hmem1
    injection heq with hk hs
    subst hk
    subst hs
    have hlk := lookup_eq_of_mem (nodup_keys_buildStats (flattenEdges ne)) hmem0
    rw [lookup_buildStats, hE] at hlk
    by_cases hcnt : countEdgesNamed k0 (keptEdges nodes excl env) = 0
    · rw [if_pos hcnt] at hlk
      exact absurd hlk (by simp)
    · rw [if_neg hcnt] at hlk
      simp only [Option.some.injEq] at hlk
      subst hlk
      obtain ⟨c, hcol⟩ := Option.isSome_iff_exists.mp (lastColorNamed_isSome hcnt)
      refine ⟨hcnt, rfl, rfl, ?_⟩
      simp [hcol]

/-- C1 counterexample: with one non-excluded repository whose edge list
mentions "X" twice, the output of `fetchTopLanguages` records `count = 2`
for "X" although the number of distinct repositories listing "X" is 1 —
refuting that `count` equals (and never exceeds) that number. -/
theorem count_claim_cex :
    (fetchTopLanguages "u" [] 1 0 []
       [⟨none, "OK", [⟨"r", some [⟨1, ⟨"red", "X"⟩⟩, ⟨2, ⟨"blue", "X"⟩⟩]⟩], false, none⟩]).1 =
      .ok [("X", ⟨"X", "blue", 3, 2⟩)] ∧
    reposListing "X" [⟨"r", some [⟨1, ⟨"red", "X"⟩⟩, ⟨2, ⟨"blue", "X"⟩⟩]⟩] = 1 ∧
    (2 : Nat) ≠ 1 :=
  ⟨rfl, rfl, by decide⟩

/-- C1 (amended): in the output of the aggregation stage, the `count` for a
language equals the number of EDGES naming that language across the
non-excluded repositories (one repository listing a language twice counts
twice); it equals the number of distinct contributing repositories exactly
when no repository's edge list repeats a language name. -/
theorem count_eq_contributing_edges {nodes : List RepoNode} {excl env : List String}
    {sw cw : Nat} {out : List (String × LangStat)} {l : String} {s : LangStat}
    (hok : aggregate nodes excl env sw cw = .ok out) (hmem : (l, s) ∈ out) :
    s.count = countEdgesNamed l (keptEdges nodes excl env) :=
  (aggregate_ok_mem hok hmem).2.1

theorem count_eq_contributing_edges_witness :
    aggregate [⟨"wr", some [⟨2, ⟨"u", "W"⟩⟩, ⟨5, ⟨"v", "W"⟩⟩]⟩] [] [] 1 0 =
      .ok [("W", ⟨"W", "v", 7, 2⟩)] ∧
    ("W", (⟨"W", "v", 7, 2⟩ : LangStat)) ∈ [("W", (⟨"W", "v", 7, 2⟩ : LangStat))] ∧
    (⟨"W", "v", 7, 2⟩ : LangStat).count =
      countEdgesNamed "W" (keptEdges [⟨"wr", some [⟨2, ⟨"u", "W"⟩⟩, ⟨5, ⟨"v", "W"⟩⟩]⟩] [] []) :=
  ⟨rfl, by decide,
   @count_eq_contributing_edges [⟨"wr", some [⟨2, ⟨"u", "W"⟩⟩, ⟨5, ⟨"v", "W"⟩⟩]⟩] [] [] 1 0
     [("W", ⟨"W", "v", 7, 2⟩)] "W" ⟨"W", "v", 7, 2⟩ rfl (by decide)⟩

/-- C2: with the default weights `size_weight = 1`, `count_weight = 0`, the
final `size` of every language in the aggregation output is the raw sum of
the `size` fields of all edges for that language across the contributing
non-excluded repositories: the weighting step leaves the summed bytes
unchanged. -/
theorem size_unweighted_default {nodes : List RepoNode} {excl env : List String}
    {out : List (String × LangStat)} {l : String} {s : LangStat}
    (hok : aggregate nodes excl env 1 0 = .ok out) (hmem : (l, s) ∈ out) :
    s.size = sumSizesNamed l (keptEdges nodes excl env) := by
  have h := (aggregate_ok_mem hok hmem).2.2.1
  simpa using h

theorem size_unweighted_default_witness :
    aggregate [⟨"w2", some [⟨4, ⟨"c", "L"⟩⟩]⟩] [] [] 1 0 =
      .ok [("L", ⟨"L", "c", 4, 1⟩)] ∧
    ("L", (⟨"L", "c", 4, 1⟩ : LangStat)) ∈ [("L", (⟨"L", "c", 4, 1⟩ : LangStat))] ∧
    (⟨"L", "c", 4, 1⟩ : LangStat).size =
      sumSizesNamed "L" (keptEdges [⟨"w2", some [⟨4, ⟨"c", "L"⟩⟩]⟩] [] []) :=
  ⟨rfl, by decide,
   @size_unweighted_default [⟨"w2", some [⟨4, ⟨"c", "L"⟩⟩]⟩] [] []
     [("L", ⟨"L", "c", 4, 1⟩)] "L" ⟨"L", "c", 4, 1⟩ rfl (by decide)⟩

/-- C3: the output mapping of the aggregation stage is ordered descending by
the weighted `size`: whenever entry A appears before entry B, A's weighted
`size` is at least B's (each entry's `size` is the weighted score
`pow(size, size_weight) * pow(count, count_weight)` after the weighting
pass). -/
theorem output_sorted_by_weighted_size {nodes : List RepoNode} {excl env : List String}
    {sw cw : Nat} {out : List (String × LangStat)}
    (hok : aggregate nodes excl env sw cw = .ok out) :
    out.Pairwise (fun a b => b.2.size ≤ a.2.size) := by
  unfold aggregate at hok
  split at hok
  · exact absurd hok (by simp)
  · simp only [Except.ok.injEq] at hok
    subst hok
    exact sortStats_pairwise _

theorem output_sorted_by_weighted_size_witness :
    aggregate [⟨"a", some [⟨3, ⟨"cA", "A"⟩⟩]⟩, ⟨"b", some [⟨7, ⟨"cB", "B"⟩⟩]⟩] [] [] 1 0 =
      .ok [("B", ⟨"B", "cB", 7, 1⟩), ("A", ⟨"A", "cA", 3, 1⟩)] ∧
    ([("B", (⟨"B", "cB", 7, 1⟩ : LangStat)),
      ("A", (⟨"A", "cA", 3, 1⟩ : LangStat))]).Pairwise
      (fun a b => b.2.size ≤ a.2.size) :=
  ⟨rfl,
   @output_sorted_by_weighted_size [⟨"a", some [⟨3, ⟨"cA", "A"⟩⟩]⟩, ⟨"b", some [⟨7, ⟨"cB", "B"⟩⟩]⟩]
     [] [] 1 0 [("B", ⟨"B", "cB", 7, 1⟩), ("A", ⟨"A", "cA", 3, 1⟩)] rfl⟩

/-- C5 counterexample: with one repository whose edge list mentions "Y"
twice, first with color "c1" and then with color "c2", the output records
color "c2" — the color of the LAST edge processed — although the first edge
for "Y" encountered during the fold carries "c1". -/
theorem color_first_edge_cex :
    (fetchTopLanguages "u" [] 1 0 []
       [⟨none, "OK", [⟨"a", some [⟨5, ⟨"c1", "Y"⟩⟩, ⟨7, ⟨"c2", "Y"⟩⟩]⟩], false, none⟩]).1 =
      .ok [("Y", ⟨"Y", "c2", 12, 2⟩)] ∧
    firstColorNamed "Y" (keptEdges [⟨"a", some [⟨5, ⟨"c1", "Y"⟩⟩, ⟨7, ⟨"c2", "Y"⟩⟩]⟩] [] []) =
      some "c1" ∧
    ("c2" : String) ≠ "c1" :=
  ⟨rfl, rfl, by decide⟩

/-- C5 (amended): the `color` recorded for a language in the aggregation
output is the color carried by the LAST edge for that language encountered
during the fold: each later edge for an already-present language overwrites
the recorded color (source line 135 writes `edge.node.color` in the
accumulate branch). -/
theorem color_last_edge {nodes : List RepoNode} {excl env : List String}
    {sw cw : Nat} {out : List (String × LangStat)} {l : String} {s : LangStat}
    (hok : aggregate nodes excl env sw cw = .ok out) (hmem : (l, s) ∈ out) :
    lastColorNamed l (keptEdges nodes excl env) = some s.color :=
  (aggregate_ok_mem hok hmem).2.2.2

theorem color_last_edge_witness :
    aggregate [⟨"cw", some [⟨1, ⟨"p", "Q"⟩⟩, ⟨2, ⟨"q", "Q"⟩⟩]⟩] [] [] 1 0 =
      .ok [("Q", ⟨"Q", "q", 3, 2⟩)] ∧
    ("Q", (⟨"Q", "q", 3, 2⟩ : LangStat)) ∈ [("Q", (⟨"Q", "q", 3, 2⟩ : LangStat))] ∧
    lastColorNamed "Q" (keptEdges [⟨"cw", some [⟨1, ⟨"p", "Q"⟩⟩, ⟨2, ⟨"q", "Q"⟩⟩]⟩] [] []) =
      some (⟨"Q", "q", 3, 2⟩ : LangStat).color :=
  ⟨rfl, by decide,
   @color_last_edge [⟨"cw", some [⟨1, ⟨"p", "Q"⟩⟩, ⟨2, ⟨"q", "Q"⟩⟩]⟩] [] [] 1 0
     [("Q", ⟨"Q", "q", 3, 2⟩)] "Q" ⟨"Q", "q", 3, 2⟩ rfl (by decide)⟩

/-- C4 counterexample: a non-excluded repository node whose language edge
list is absent makes `fetchTopLanguages` fail with a `TypeError` (the
source reads `node.languages.edges` without a guard), rather than being
treated as contributing zero edges. -/
theorem missing_edge_list_cex :
    (fetchTopLanguages "u" [] 1 0 [] [⟨none, "OK", [⟨"r0", none⟩], false, none⟩]).1 =
      .error .jsTypeError :=
  rfl

/-- C4 (amended): a non-excluded node whose language edge list is ABSENT
makes the aggregation stage raise a `TypeError`; when every non-excluded
node carries an edge list (possibly empty), the aggregation never raises,
and whenever no edges survive — no repositories, all excluded, or all edge
lists empty — it returns the empty mapping. -/
theorem aggregate_total_on_present_edge_lists {nodes : List RepoNode}
    {excl env : List String} {sw cw : Nat}
    (h : ∀ n ∈ nodes, n.name ∉ excl ++ env → n.languages ≠ none) :
    ∃ out, aggregate nodes excl env sw cw = .ok out ∧
      (keptEdges nodes excl env = [] → out = []) := by
  have hkept : ∀ n ∈ keptNodes nodes excl env, n.languages ≠ none := by
    intro n hn
    rw [keptNodes, legacySort] at hn
    have hn' := List.mem_filter.mp hn
    exact h n hn'.1 (by simpa using hn'.2)
  obtain ⟨r, hr⟩ := filterNonEmptyLangs_ok hkept
  refine ⟨sortStats (applyWeights sw cw (buildStats (flattenEdges r))), ?_, ?_⟩
  · simp [aggregate, hr]
  · intro hempty
    have hE : flattenEdges r = keptEdges nodes excl env := filterNonEmptyLangs_flatten hr
    rw [hE, hempty]
    rfl

theorem aggregate_total_on_present_edge_lists_witness :
    (∀ n ∈ [(⟨"k", some [⟨2, ⟨"c", "Z"⟩⟩]⟩ : RepoNode)],
       n.name ∉ ([] ++ [] : List String) → n.languages ≠ none) ∧
    ∃ out, aggregate [⟨"k", some [⟨2, ⟨"c", "Z"⟩⟩]⟩] [] [] 1 0 = .ok out ∧
      (keptEdges [⟨"k", some [⟨2, ⟨"c", "Z"⟩⟩]⟩] [] [] = [] → out = []) :=
  ⟨by decide,
   @aggregate_total_on_present_edge_lists [⟨"k", some [⟨2, ⟨"c", "Z"⟩⟩]⟩] [] [] 1 0 (by decide)⟩

/-- C6: a repository whose name is present in the union of the per-call
exclusion list and the process-wide exclusion list contributes no edge to
any language's `size` or `count`: deleting it from the collected node
sequence — at any position — leaves the aggregation output unchanged. -/
theorem excluded_repo_contributes_nothing (ns₁ ns₂ : List RepoNode) (r : RepoNode)
    (excl env : List String) (sw cw : Nat)
    (h : r.name ∈ excl ++ env) :
    aggregate (ns₁ ++ r :: ns₂) excl env sw cw = aggregate (ns₁ ++ ns₂) excl env sw cw := by
  have hpred : (decide (r.name ∉ excl ++ env)) = false := by simp [h]
  have hk : keptNodes (ns₁ ++ r :: ns₂) excl env = keptNodes (ns₁ ++ ns₂) excl env := by
    simp only [keptNodes, legacySort, List.filter_append, List.filter_cons]
    rw [hpred]
    simp
  unfold aggregate
  rw [hk]

theorem excluded_repo_contributes_nothing_witness :
    ("x" : String) ∈ ["x"] ++ ([] : List String) ∧
    aggregate ([] ++ (⟨"x", some []⟩ : RepoNode) :: []) ["x"] [] 1 0 =
      aggregate ([] ++ []) ["x"] [] 1 0 :=
  ⟨by decide, excluded_repo_contributes_nothing [] [] ⟨"x", some []⟩ ["x"] [] 1 0 (by decide)⟩

theorem collectNodes_clean :
    ∀ (ps : List Page) (plast : Page) (acc : List RepoNode) (c : Nat),
    (∀ p ∈ ps, p.errors = none ∧ p.hasNextPage = true) →
    plast.errors = none → plast.hasNextPage = false →
    collectNodes acc c (ps ++ [plast]) =
      (.ok (acc ++ ((ps ++ [plast]).map Page.nodes).flatten), c + (ps ++ [plast]).length) := by
  intro ps
  induction ps with
  | nil =>
    intro plast acc c _ herrl hlast
    simp [collectNodes, herrl, hlast]
  | cons p ps ih =>
    intro plast acc c hclean herrl hlast
    have hp := hclean p (List.mem_cons_self p ps)
    rw [List.cons_append]
    simp only [collectNodes, hp.1, hp.2, if_pos]
    rw [ih plast (acc ++ p.nodes) (c + 1)
        (fun q hq => hclean q (List.mem_cons_of_mem p hq)) herrl hlast]
    simp [List.append_assoc]
    omega

/-- C7: over a fetch sequence whose pages all succeed without an error
envelope, whose non-final pages report `hasNextPage = true` and whose last
page reports `hasNextPage = false`, the pagination loop terminates with a
success (never reaching past the sequence), the accumulated node sequence is
the concatenation of every page's nodes in page order, one fetch is
performed per page, and the accumulated length is the sum of the pages' node
counts. -/
theorem pagination_terminates_collects_all (ps : List Page) (plast : Page)
    (herr : ∀ p ∈ ps ++ [plast], p.errors = none)
    (hnext : ∀ p ∈ ps, p.hasNextPage = true)
    (hlast : plast.hasNextPage = false) :
    collectNodes [] 0 (ps ++ [plast]) =
      (.ok (((ps ++ [plast]).map Page.nodes).flatten), (ps ++ [plast]).length) ∧
    (((ps ++ [plast]).map Page.nodes).flatten).length =
      (((ps ++ [plast]).map fun p => p.nodes.length)).sum := by
  constructor
  · have h := collectNodes_clean ps plast [] 0
      (fun q hq => ⟨herr q (List.mem_append_left _ hq), hnext q hq⟩)
      (herr plast (List.mem_append_right _ (List.mem_singleton_self plast))) hlast
    simpa using h
  · simp [List.length_flatten, List.map_map, Function.comp_def]

theorem pagination_terminates_collects_all_witness :
    (∀ p ∈ [(⟨none, "OK", [⟨"a", some []⟩], true, some "c1"⟩ : Page)] ++
        [(⟨none, "OK", [⟨"b", some []⟩, ⟨"c", none⟩], false, none⟩ : Page)],
       p.errors = none) ∧
    (∀ p ∈ [(⟨none, "OK", [⟨"a", some []⟩], true, some "c1"⟩ : Page)],
       p.hasNextPage = true) ∧
    (⟨none, "OK", [⟨"b", some []⟩, ⟨"c", none⟩], false, none⟩ : Page).hasNextPage = false ∧
    (collectNodes [] 0
        ([(⟨none, "OK", [⟨"a", some []⟩], true, some "c1"⟩ : Page)] ++
         [(⟨none, "OK", [⟨"b", some []⟩, ⟨"c", none⟩], false, none⟩ : Page)]) =
       (.ok ((([(⟨none, "OK", [⟨"a", some []⟩], true, some "c1"⟩ : Page)] ++
               [(⟨none, "OK", [⟨"b", some []⟩, ⟨"c", none⟩], false, none⟩ : Page)]).map
                Page.nodes).flatten),
        ([(⟨none, "OK", [⟨"a", some []⟩], true, some "c1"⟩ : Page)] ++
         [(⟨none, "OK", [⟨"b", some []⟩, ⟨"c", none⟩], false, none⟩ : Page)]).length) ∧
     ((([(⟨none, "OK", [⟨"a", some []⟩], true, some "c1"⟩ : Page)] ++
        [(⟨none, "OK", [⟨"b", some []⟩, ⟨"c", none⟩], false, none⟩ : Page)]).map
         Page.nodes).flatten).length =
       ((([(⟨none, "OK", [⟨"a", some []⟩], true, some "c1"⟩ : Page)] ++
          [(⟨none, "OK", [⟨"b", some []⟩, ⟨"c", none⟩], false, none⟩ : Page)]).map
           fun p => p.nodes.length)).sum) :=
  ⟨by decide, by decide, by decide,
   pagination_terminates_collects_all
     [⟨none, "OK", [⟨"a", some []⟩], true, some "c1"⟩]
     ⟨none, "OK", [⟨"b", some []⟩, ⟨"c", none⟩], false, none⟩
     (by decide) (by decide) (by decide)⟩

/-- C8: calling `fetchTopLanguages` with an empty (or absent) username fails
with `MissingParamError(["username"])` before any page fetch is attempted:
the result does not depend on the page stream and the fetch count is 0, so
the fetch collaborator is never invoked. -/
theorem missing_username_fails_before_fetch (excl env : List String) (sw cw : Nat)
    (pages : List Page) :
    fetchTopLanguages "" excl sw cw env pages = (.error (.missingParam ["username"]), 0) :=
  rfl

/-- C9: a page response carrying a non-empty error envelope makes
`fetchTopLanguages` throw the error determined by the first envelope entry:
a "NOT_FOUND" type yields the user-not-found error carrying the provider
message when one is present ("Could not fetch user." otherwise); any other
type with a (truthy) provider message yields the upstream error carrying the
first wrapped line — at most 90 characters — of that message together with
the response's status text; any other type without a usable message yields
the generic GraphQL error. -/
theorem error_envelope_mapping (username : String) (excl env : List String) (sw cw : Nat)
    (p : Page) (ps : List Page) (e : GqlError) (rest : List GqlError)
    (hu : username ≠ "") (herr : p.errors = some (e :: rest)) :
    (fetchTopLanguages username excl sw cw env (p :: ps)).1 =
      .error (handleGqlErrors e p.statusText) ∧
    (e.type = some "NOT_FOUND" →
      handleGqlErrors e p.statusText =
        .userNotFound (jsStringOr e.message "Could not fetch user.")) ∧
    (e.type ≠ some "NOT_FOUND" → ∀ m, e.message = some m → m ≠ "" →
      handleGqlErrors e p.statusText =
        .upstream ((wrapTextMultiline m 90 1).headD "") p.statusText ∧
      ((wrapTextMultiline m 90 1).headD "").length ≤ 90) ∧
    (e.type ≠ some "NOT_FOUND" → (e.message = none ∨ e.message = some "") →
      handleGqlErrors e p.statusText =
        .graphql "Something went wrong while trying to retrieve the language data using the GraphQL API.") := by
  refine ⟨?_, ?_, ?_, ?_⟩
  · simp [fetchTopLanguages, hu, collectNodes, herr]
  · intro ht
    simp [handleGqlErrors, ht]
  · intro ht m hm hm0
    refine ⟨?_, ?_⟩
    · simp [handleGqlErrors, ht, jsTruthyString, hm, String.isEmpty_iff, hm0]
    · have h90 : ((wrapTextMultiline m 90 1).headD "").length = (m.toList.take 90).length := rfl
      rw [h90, List.length_take]
      exact Nat.min_le_left _ _
  · intro ht hm
    rcases hm with hm | hm <;> simp [handleGqlErrors, ht, jsTruthyString, hm] <;> decide

theorem error_envelope_mapping_witness :
    ("u" : String) ≠ "" ∧
    (⟨some [⟨some "NOT_FOUND", some "nope"⟩], "Err", [], true, none⟩ : Page).errors =
      some [⟨some "NOT_FOUND", some "nope"⟩] ∧
    ((fetchTopLanguages "u" [] 1 0 []
        [⟨some [⟨some "NOT_FOUND", some "nope"⟩], "Err", [], true, none⟩]).1 =
      .error (handleGqlErrors ⟨some "NOT_FOUND", some "nope"⟩ "Err") ∧
     ((⟨some "NOT_FOUND", some "nope"⟩ : GqlError).type = some "NOT_FOUND" →
       handleGqlErrors ⟨some "NOT_FOUND", some "nope"⟩ "Err" =
         .userNotFound (jsStringOr (⟨some "NOT_FOUND", some "nope"⟩ : GqlError).message
           "Could not fetch user.")) ∧
     ((⟨some "NOT_FOUND", some "nope"⟩ : GqlError).type ≠ some "NOT_FOUND" →
       ∀ m, (⟨some "NOT_FOUND", some "nope"⟩ : GqlError).message = some m → m ≠ "" →
       handleGqlErrors ⟨some "NOT_FOUND", some "nope"⟩ "Err" =
         .upstream ((wrapTextMultiline m 90 1).headD "") "Err" ∧
       ((wrapTextMultiline m 90 1).headD "").length ≤ 90) ∧
     ((⟨some "NOT_FOUND", some "nope"⟩ : GqlError).type ≠ some "NOT_FOUND" →
       ((⟨some "NOT_FOUND", some "nope"⟩ : GqlError).message = none ∨
        (⟨some "NOT_FOUND", some "nope"⟩ : GqlError).message = some "") →
       handleGqlErrors ⟨some "NOT_FOUND", some "nope"⟩ "Err" =
         .graphql "Something went wrong while trying to retrieve the language data using the GraphQL API.")) :=
  ⟨by decide, rfl,
   error_envelope_mapping "u" [] [] 1 0
     ⟨some [⟨some "NOT_FOUND", some "nope"⟩], "Err", [], true, none⟩ []
     ⟨some "NOT_FOUND", some "nope"⟩ [] (by decide) rfl⟩

/-- C10: when a reached page response carries a non-empty error envelope,
the thrown error — its class and its message — is determined solely by the
FIRST entry of the envelope: replacing every entry after the first (and the
pages after the erroring one, which are never fetched) leaves the result of
`fetchTopLanguages` unchanged; in particular a "NOT_FOUND" entry in second
position behind a non-"NOT_FOUND" first entry does not produce the
user-not-found error. -/
theorem first_error_entry_determines_failure (username : String) (excl env : List String)
    (sw cw : Nat) (e : GqlError) (errs errs' : List GqlError) (st : String)
    (nodes : List RepoNode) (hnp : Bool) (ec : Option String) (ps ps' : List Page) :
    fetchTopLanguages username excl sw cw env (⟨some (e :: errs), st, nodes, hnp, ec⟩ :: ps) =
      fetchTopLanguages username excl sw cw env (⟨some (e :: errs'), st, nodes, hnp, ec⟩ :: ps') := by
  by_cases hu : username = "" <;> simp [fetchTopLanguages, hu, collectNodes]
